import Mathlib

/-!
# Verification of the `gowatcher` polling file watcher

Shallow embedding of the `gowatcher` Go package (files `data_type.go` and the
main watcher file): the snapshot-node data model, the filter predicates, the
tree builder (`traverseTree`), the diff engine (`pollNodeEvent`), and the
lifecycle/polling loop of `Start`.  Go maps are modelled as association lists,
the filesystem as a finite map from absolute path to stat metadata, regular
expressions as abstract matcher functions `String → Bool`, and the two
mutually recursive directory walks by a fuel parameter (the recursion in the
source is bounded by the finite on-disk tree; out of fuel the model returns
the node unchanged / a stat error).  Channel sends are modelled by
accumulating the emitted events in order; the `cancel` channel is modelled as
a boolean that is `true` once the polling loop has closed it (after the
channel is closed the inner loop has stopped reading `evt`, so the Go
`select` deterministically takes the `cancel` branch).
-/

set_option maxHeartbeats 1000000
set_option maxRecDepth 4000

namespace GoWatcherSpec

/-- Event operation kinds (`data_type.go`, the `Op` constants). -/
inductive Op where
  | Create
  | Write
  | Remove
  | Chmod
deriving DecidableEq, Repr

/-- Model of `os.FileInfo`: the stat metadata the watcher reads.  `mode` is
the Go `os.FileMode` bit set; `modTime` is the modification time in
nanoseconds. -/
structure FileInfo where
  name : String
  size : Int
  mode : Nat
  modTime : Int
deriving DecidableEq, Repr

/-- Go `FileMode.IsDir`: `os.ModeDir` is bit 31 of the mode word. -/
def FileInfo.IsDir (i : FileInfo) : Bool := i.mode.testBit 31

/-- The test `info.Mode()&os.ModeSymlink != 0`: `os.ModeSymlink` is bit 27. -/
def FileInfo.symlinkBitSet (i : FileInfo) : Bool := i.mode.testBit 27

/-- An `Event` (`data_type.go`): operation, full path, and the file metadata
(the embedded `os.FileInfo`). -/
structure Event where
  op : Op
  path : String
  fileInfo : FileInfo
deriving DecidableEq, Repr

/-- A `FileNode` (`data_type.go`): one snapshot node of the watch tree.
`children` is the Go map keyed by base name, modelled as an association
list.  (The per-node mutex is concurrency plumbing and has no pure
content.) -/
inductive FileNode where
  | mk (path : String) (info : FileInfo) (ignored : Bool) (recursive : Bool)
      (children : List (String × FileNode))

def FileNode.path : FileNode → String
  | .mk p _ _ _ _ => p

def FileNode.info : FileNode → FileInfo
  | .mk _ i _ _ _ => i

def FileNode.ignored : FileNode → Bool
  | .mk _ _ ig _ _ => ig

def FileNode.recursive : FileNode → Bool
  | .mk _ _ _ r _ => r

def FileNode.children : FileNode → List (String × FileNode)
  | .mk _ _ _ _ cs => cs

/-- `node.Info = newInfo` (assignment of the stat field). -/
def FileNode.setInfo : FileNode → FileInfo → FileNode
  | .mk p _ ig r cs, i => .mk p i ig r cs

/-- `node.Children = childMap` (assignment of the children map). -/
def FileNode.setChildren : FileNode → List (String × FileNode) → FileNode
  | .mk p i ig r _, cs => .mk p i ig r cs

/-- `fileNode.recursive = true` (assignment of the recursion flag). -/
def FileNode.setRecursive : FileNode → Bool → FileNode
  | .mk p i ig _ cs, r => .mk p i ig r cs

@[simp] theorem FileNode.path_mk (p i ig r cs) : (FileNode.mk p i ig r cs).path = p := rfl
@[simp] theorem FileNode.info_mk (p i ig r cs) : (FileNode.mk p i ig r cs).info = i := rfl
@[simp] theorem FileNode.ignored_mk (p i ig r cs) : (FileNode.mk p i ig r cs).ignored = ig := rfl
@[simp] theorem FileNode.recursive_mk (p i ig r cs) : (FileNode.mk p i ig r cs).recursive = r := rfl
@[simp] theorem FileNode.children_mk (p i ig r cs) : (FileNode.mk p i ig r cs).children = cs := rfl

@[simp] theorem FileNode.setInfo_def (n : FileNode) (i : FileInfo) :
    n.setInfo i = .mk n.path i n.ignored n.recursive n.children := by
  cases n; rfl

@[simp] theorem FileNode.setChildren_def (n : FileNode) (cs : List (String × FileNode)) :
    n.setChildren cs = .mk n.path n.info n.ignored n.recursive cs := by
  cases n; rfl

@[simp] theorem FileNode.setRecursive_def (n : FileNode) (r : Bool) :
    n.setRecursive r = .mk n.path n.info n.ignored r n.children := by
  cases n; rfl

/-- `newNode` (`data_type.go`): a fresh node with empty children; symbolic
links are always marked ignored. -/
def newNode (path : String) (info : FileInfo) (recursive : Bool) (ignored : Bool) : FileNode :=
  .mk path info (ignored || info.symlinkBitSet) recursive []

/-- `filepath.Join(dir, name)` for the non-degenerate case used by the
watcher (both arguments nonempty, no cleaning needed). -/
def pathJoin (dir name : String) : String := dir ++ "/" ++ name

/-- Characters of the last `/`-separated segment of a character list. -/
def baseNameAux : List Char → List Char → List Char
  | [], acc => acc
  | c :: rest, acc =>
    if c = '/' then baseNameAux rest [] else baseNameAux rest (acc ++ [c])

/-- `filepath.Base`, as far as the hidden-file test needs it: the last
`/`-separated segment. -/
def baseName (path : String) : String := ⟨baseNameAux path.data []⟩

/-- `isHiddenFile` (non-Windows build): base name starts with a dot.  The
error return is always nil on this platform and is dropped. -/
def isHiddenFile (path : String) : Bool := (baseName path).data.head? == some '.'

/-- Lookup in a Go map modelled as an association list. -/
def alookup {α : Type} : List (String × α) → String → Option α
  | [], _ => none
  | (k, v) :: rest, key => if key = k then some v else alookup rest key

/-- Go map assignment `m[key] = v`: replace an existing binding or append. -/
def ainsert {α : Type} : List (String × α) → String → α → List (String × α)
  | [], key, v => [(key, v)]
  | (k, w) :: rest, key, v =>
    if k = key then (key, v) :: rest else (k, w) :: ainsert rest key v

/-- Go map `delete(m, key)`. -/
def aerase {α : Type} : List (String × α) → String → List (String × α)
  | [], _ => []
  | (k, w) :: rest, key =>
    if k = key then aerase rest key else (k, w) :: aerase rest key

/-- The live filesystem: working directory plus a finite map from absolute
path to stat metadata. -/
structure FileSystem where
  cwd : String
  entries : List (String × FileInfo)

/-- `os.Lstat`: `none` models a stat error (path does not exist). -/
def lstat (fs : FileSystem) (path : String) : Option FileInfo :=
  alookup fs.entries path

/-- `ioutil.ReadDir`: the entries directly under `path`.  (The source
additionally sorts by name and can fail; neither matters for the
properties proved here, and listing errors are not modelled.) -/
def readDir (fs : FileSystem) (path : String) : List FileInfo :=
  (fs.entries.filter fun e => e.1 == pathJoin path e.2.name).map Prod.snd

/-- Modelled `filepath.Abs`: prefix the working directory to a relative
path (a path is absolute when its first character is `/`).  (Go
additionally cleans the result lexically; cleaning is not modelled.) -/
def absPath (fs : FileSystem) (path : String) : String :=
  if path.data.head? == some '/' then path else pathJoin fs.cwd path

/-- The `GoWatcher` state: the filter configuration, per-cycle event cap,
root map (`fileTrees`), and running flag.  Compiled regular expressions are
modelled as abstract matcher functions. -/
structure GoWatcher where
  nameFilters : List (String → Bool)
  nameIgnores : List (String → Bool)
  pathFilters : List (String → Bool)
  pathIgnores : List (String → Bool)
  ops : List Op
  ignoreHidden : Bool
  maxEvents : Int
  fileTrees : List (String × FileNode)
  running : Bool

/-- `GoWatcher.shouldIgnore`: exclusion by name/path patterns. -/
def shouldIgnore (w : GoWatcher) (name path : String) : Bool :=
  if w.nameIgnores.length == 0 && w.pathIgnores.length == 0 then false
  else
    (w.nameIgnores.any fun reg => reg name) || (w.pathIgnores.any fun reg => reg path)

/-- `GoWatcher.shouldNotice`: inclusion by name/path patterns. -/
def shouldNotice (w : GoWatcher) (name path : String) : Bool :=
  if w.nameFilters.length == 0 && w.pathFilters.length == 0 then true
  else
    (w.nameFilters.any fun reg => reg name) || (w.pathFilters.any fun reg => reg path)

/-- The complete suppression test as applied at the call sites of
`shouldIgnore` (`AddPath`, `traverseTree`): exclude filters plus the
hidden-file policy. -/
def suppressed (w : GoWatcher) (name path : String) : Bool :=
  shouldIgnore w name path || (w.ignoreHidden && isHiddenFile path)

/-- Suppression as the specification words it: matches at least one
name-exclude or path-exclude pattern, or is hidden while the hidden-file
policy is enabled. -/
def specSuppressed (w : GoWatcher) (name path : String) : Bool :=
  (w.nameIgnores.any fun reg => reg name) || (w.pathIgnores.any fun reg => reg path) ||
    (w.ignoreHidden && isHiddenFile path)

/-- Surfacing as the specification words it: both include sets empty, or at
least one name-include or path-include pattern matches. -/
def specSurfaced (w : GoWatcher) (name path : String) : Bool :=
  (w.nameFilters.isEmpty && w.pathFilters.isEmpty) ||
    (w.nameFilters.any fun reg => reg name) || (w.pathFilters.any fun reg => reg path)

/-- Error values relevant to the modelled API (`ErrDurationTooShort`,
`ErrWatcherRunning`, `ErrWatchSymlink`, and a stat failure). -/
inductive WatchError where
  | durationTooShort
  | watcherRunning
  | watchSymlink
  | notFound
deriving DecidableEq, Repr

/-- The synchronous prelude of `GoWatcher.Start`: reject a duration below
one nanosecond, then reject an already-running watcher, otherwise set the
running flag.  `d` is the duration in nanoseconds (Go `time.Duration`). -/
def startCheck (w : GoWatcher) (d : Int) : Option WatchError × GoWatcher :=
  if d < 1 then (some .durationTooShort, w)
  else if w.running then (some .watcherRunning, w)
  else (none, { w with running := true })

/-- The body of the entry loop of `GoWatcher.traverseTree`.  `t` is the
recursive call (`traverseTree` at one level deeper, always with
`recursive = true`).  Skips excluded and hidden entries entirely; for the
remaining entries stores a shallow node when `recursive` is false and the
recursively built subtree otherwise.  (When the recursive build fails the
source stores the returned nil pointer and discards the error
(`childMap[name], _ = ...`); a nil map value is observably absent from every
later read, so the model skips the assignment.) -/
def ttLoop (w : GoWatcher) (t : String → Option FileNode) (path : String) (recursive : Bool) :
    List FileInfo → List (String × FileNode) → List (String × FileNode)
  | [], childMap => childMap
  | info :: rest, childMap =>
    let name := info.name
    let cpath := pathJoin path name
    let shouldIg := shouldIgnore w name cpath
    if shouldIg || (w.ignoreHidden && isHiddenFile cpath) then
      ttLoop w t path recursive rest childMap
    else if !recursive then
      ttLoop w t path recursive rest (ainsert childMap name (newNode cpath info false shouldIg))
    else if !shouldIg then
      match t cpath with
      | some c => ttLoop w t path recursive rest (ainsert childMap name c)
      | none => ttLoop w t path recursive rest childMap
    else ttLoop w t path recursive rest childMap

/-- `GoWatcher.traverseTree`: stat the path, build the node, and if it is a
non-ignored directory fill its children from the live listing.  `none`
models the error return when the stat fails (and, artificially, fuel
exhaustion; any fuel larger than the directory depth gives the source
behaviour). -/
def traverseTree (w : GoWatcher) (fs : FileSystem) : Nat → String → Bool → Option FileNode
  | 0 => fun _ _ => none
  | fuel + 1 => fun path recursive =>
    match lstat fs path with
    | none => none
    | some stat =>
      let node := newNode path stat recursive (shouldIgnore w stat.name path)
      if !stat.IsDir || node.ignored then some node
      else
        some (node.setChildren
          (ttLoop w (fun p => traverseTree w fs fuel p true) path recursive (readDir fs path) []))

/-- Result of `GoWatcher.AddPath`: the error, or the updated watcher. -/
inductive AddPathResult where
  | ok (w : GoWatcher)
  | err (e : WatchError)

def AddPathResult.isOk : AddPathResult → Bool
  | .ok _ => true
  | .err _ => false

/-- `GoWatcher.AddPath`: normalize to an absolute path, refuse symbolic
links, no-op when the path is already a root or is suppressed by the
exclude/hidden filters, otherwise build the subtree, force its recursion
flag to true and store it as a new root. -/
def AddPath (w : GoWatcher) (fs : FileSystem) (fuel : Nat) (path : String) (recursive : Bool) :
    AddPathResult :=
  let apath := absPath fs path
  match lstat fs apath with
  | none => .err .notFound
  | some stat =>
    if stat.symlinkBitSet then .err .watchSymlink
    else if (alookup w.fileTrees apath).isSome then .ok w
    else if shouldIgnore w stat.name apath || (w.ignoreHidden && isHiddenFile apath) then .ok w
    else
      match traverseTree w fs fuel apath recursive with
      | none => .err .notFound
      | some fileNode =>
        .ok { w with fileTrees := ainsert w.fileTrees apath (fileNode.setRecursive true) }

/-- `GoWatcher.Remove`: drop the root if present. -/
def RemovePath (w : GoWatcher) (fs : FileSystem) (path : String) : GoWatcher :=
  { w with fileTrees := aerase w.fileTrees (absPath fs path) }

/-- First child loop of `GoWatcher.pollNodeEvent` (over the live listing).
`p` is the recursive diff call at one fuel level deeper.  Threads the
in-place mutations of `node.Children` and the local `infoMap`; the returned
boolean is true when the loop aborted at the cancel check before a `Create`
send (the source then returns the node immediately, skipping the examine
loop).  When a recursive diff returns `none` the source stores a nil map
value which every later read treats as absent (the examine loop deletes it
without an event); the model erases the binding directly.  The result of
the recursive diff of a *new* child is discarded by the source
(`w.pollNodeEvent(newChild, evt, cancel)` bare call), but the mutations
happen in place through the pointer, so the model writes the returned node
back into the map. -/
def pollLoop1 (w : GoWatcher) (cancel : Bool) (p : FileNode → Option FileNode × List Event)
    (nodePath : String) (nodeRec : Bool) :
    List FileInfo → List (String × FileNode) → List (String × FileInfo) →
      List (String × FileNode) × List (String × FileInfo) × List Event × Bool
  | [], children, infoMap => (children, infoMap, [], false)
  | info :: rest, children, infoMap =>
    let name := info.name
    let cpath := pathJoin nodePath name
    if w.ignoreHidden && isHiddenFile cpath then
      pollLoop1 w cancel p nodePath nodeRec rest children infoMap
    else
      match alookup children name with
      | some child =>
        if child.ignored then
          pollLoop1 w cancel p nodePath nodeRec rest children infoMap
        else
          let r := p child
          let children1 := match r.1 with
            | some c => ainsert children name c
            | none => aerase children name
          let r2 := pollLoop1 w cancel p nodePath nodeRec rest children1 (ainsert infoMap name info)
          (r2.1, r2.2.1, r.2 ++ r2.2.2.1, r2.2.2.2)
      | none =>
        let newChild := newNode cpath info nodeRec (shouldIgnore w name cpath)
        let children1 := ainsert children name newChild
        if newChild.ignored then
          pollLoop1 w cancel p nodePath nodeRec rest children1 infoMap
        else if cancel then (children1, infoMap, [], true)
        else
          let r := p newChild
          let children2 := match r.1 with
            | some c => ainsert children1 name c
            | none => children1
          let r2 := pollLoop1 w cancel p nodePath nodeRec rest children2 (ainsert infoMap name info)
          (r2.1, r2.2.1, Event.mk .Create cpath info :: (r.2 ++ r2.2.2.1), r2.2.2.2)

/-- Second child loop of `GoWatcher.pollNodeEvent` ("examine every node"),
over the keys of the children map as it stands after the first loop.
Children still present in the live listing (`infoMap`) are diffed again;
the rest are deleted, with a cancel-guarded `Remove` event for the
non-ignored ones.  The returned boolean marks the cancel abort.  (The
source iterates the Go map in unspecified order; the model uses the stored
order.  Nil map values cannot arise in the model, see `pollLoop1`.) -/
def pollLoop2 (cancel : Bool) (p : FileNode → Option FileNode × List Event) :
    List String → List (String × FileNode) → List (String × FileInfo) →
      List (String × FileNode) × List Event × Bool
  | [], children, _ => (children, [], false)
  | k :: ks, children, infoMap =>
    match alookup children k with
    | none => pollLoop2 cancel p ks children infoMap
    | some childNode =>
      if (alookup infoMap k).isSome then
        let r := p childNode
        let children1 := match r.1 with
          | some c => ainsert children k c
          | none => aerase children k
        let r2 := pollLoop2 cancel p ks children1 (aerase infoMap k)
        (r2.1, r.2 ++ r2.2.1, r2.2.2)
      else
        let children1 := aerase children k
        if childNode.ignored then pollLoop2 cancel p ks children1 infoMap
        else if cancel then (children1, [], true)
        else
          let r2 := pollLoop2 cancel p ks children1 infoMap
          (r2.1, Event.mk .Remove childNode.path childNode.info :: r2.2.1, r2.2.2)

/-- `GoWatcher.pollNodeEvent`, the diff engine.  The `cancel` channel is a
boolean (already closed or not); each guarded send is modelled as "if
cancel then return the node in its current state, else append the event".
The `Remove` sent when the stat of the node's own path fails is *not*
guarded in the source and is therefore emitted unconditionally here.  Fuel
exhaustion returns the node unchanged; any fuel above the tree depth gives
the source behaviour. -/
def pollNodeEvent (w : GoWatcher) (fs : FileSystem) (cancel : Bool) :
    Nat → FileNode → Option FileNode × List Event
  | 0 => fun node => (some node, [])
  | fuel + 1 => fun node =>
    if node.ignored then (some node, [])
    else
      match lstat fs node.path with
      | none => (none, [Event.mk .Remove node.path node.info])
      | some newInfo =>
        let tChanged := node.info.modTime != newInfo.modTime
        if tChanged && cancel then (some node, [])
        else
          let ev1 : List Event := if tChanged then [Event.mk .Write node.path newInfo] else []
          let mChanged := node.info.mode != newInfo.mode
          if mChanged && cancel then (some node, ev1)
          else
            let ev2 := ev1 ++ (if mChanged then [Event.mk .Chmod node.path newInfo] else [])
            let node1 := node.setInfo newInfo
            if !newInfo.IsDir || !node1.recursive then (some node1, ev2)
            else
              let l1 := pollLoop1 w cancel (pollNodeEvent w fs cancel fuel)
                node1.path node1.recursive (readDir fs node1.path) node1.children []
              if l1.2.2.2 then (some (node1.setChildren l1.1), ev2 ++ l1.2.2.1)
              else
                let l2 := pollLoop2 cancel (pollNodeEvent w fs cancel fuel)
                  (l1.1.map Prod.fst) l1.1 l1.2.1
                (some (node1.setChildren l2.1), ev2 ++ l1.2.2.1 ++ l2.2.1)

/-- The filtering/cap part of the `inner` loop of `GoWatcher.Start`, acting
on the ordered stream of raw events the diff pass hands over on `evt`.
Returns the events delivered on the public channel and whether the cap
closed `cancel`.  An event is dropped when the op allow-set is nonempty and
misses its op, or when `shouldNotice` rejects it; otherwise the counter is
bumped and, once it exceeds a positive `maxEvents`, `cancel` is closed and
the loop breaks — that event and everything after it is withheld. -/
def startLoop (w : GoWatcher) : List Event → Int → List Event × Bool
  | [], _ => ([], false)
  | e :: rest, numEvents =>
    if !w.ops.isEmpty && !(w.ops.contains e.op) then startLoop w rest numEvents
    else if !(shouldNotice w e.fileInfo.name e.path) then startLoop w rest numEvents
    else if w.maxEvents > 0 ∧ numEvents + 1 > w.maxEvents then ([], true)
    else
      let r := startLoop w rest (numEvents + 1)
      (e :: r.1, r.2)

/-- One poll cycle's delivery, starting from a zero event counter. -/
def runCycle (w : GoWatcher) (raw : List Event) : List Event × Bool :=
  startLoop w raw 0

/-- Whether a raw event survives the op allow-set and the include filters
(the condition under which the `inner` loop counts it). -/
def survives (w : GoWatcher) (e : Event) : Bool :=
  (w.ops.isEmpty || w.ops.contains e.op) && shouldNotice w e.fileInfo.name e.path

/-- The raw events of a cycle that survive filtering. -/
def surviving (w : GoWatcher) (raw : List Event) : List Event :=
  raw.filter (survives w)

/-- `FileNode.RetrieveAllNodes` / `retrieveAllNodes` (`data_type.go`):
flatten the subtree into a path-keyed listing (the source accumulates into
a map keyed by `node.Path`; the model returns the entries in traversal
order). -/
def retrieveAllNodes (n : FileNode) : List (String × FileNode) :=
  match n with
  | .mk p i ig r cs =>
    (p, .mk p i ig r cs) :: (cs.attach.map fun c => retrieveAllNodes c.1.2).flatten
termination_by sizeOf n
decreasing_by
  obtain ⟨⟨s, x⟩, hmem⟩ := c
  have h1 := List.sizeOf_lt_of_mem hmem
  simp [Prod.mk.sizeOf_spec] at h1 ⊢
  omega

/-- `GoWatcher.RetrieveAllNodes`: union over all roots. -/
def RetrieveAllNodes (w : GoWatcher) : List (String × FileNode) :=
  (w.fileTrees.map fun r => retrieveAllNodes r.2).flatten

/-- The ignored-subtree invariant of the specification: every reachable node
with `ignored = true` has empty children. -/
inductive IgnoredInv : FileNode → Prop where
  | mk (p : String) (i : FileInfo) (ig r : Bool) (cs : List (String × FileNode)) :
      (ig = true → cs = []) → (∀ c ∈ cs, IgnoredInv c.2) →
      IgnoredInv (.mk p i ig r cs)

/-! ## Concrete sample data (used by witnesses and counterexamples) -/

/-- A watcher with no filters, no cap, not running. -/
def sampleW : GoWatcher := ⟨[], [], [], [], [], false, 0, [], false⟩

/-- A watcher with a per-cycle cap of one event. -/
def wCap : GoWatcher := ⟨[], [], [], [], [], false, 1, [], false⟩

/-- A watcher that excludes entries named `b`. -/
def wExcl : GoWatcher := ⟨[], [fun s => s == "b"], [], [], [], false, 0, [], false⟩

/-- An already-running watcher. -/
def sampleRunningW : GoWatcher := ⟨[], [], [], [], [], false, 0, [], true⟩

def emptyFS : FileSystem := ⟨"", []⟩

def goneInfo : FileInfo := ⟨"gone", 0, 0, 0⟩

/-- A watched node whose path no longer exists in `emptyFS`. -/
def goneNode : FileNode := .mk "/gone" goneInfo false true []

def evA : Event := ⟨.Create, "/x", ⟨"x", 0, 0, 0⟩⟩

def evB : Event := ⟨.Write, "/y", ⟨"y", 0, 0, 0⟩⟩

/-- Metadata of a directory (mode has the `os.ModeDir` bit). -/
def dirInfo : FileInfo := ⟨"r", 0, 2 ^ 31, 0⟩

def subdirInfo : FileInfo := ⟨"d", 0, 2 ^ 31, 0⟩

def fileInfoA : FileInfo := ⟨"a", 0, 0, 0⟩

def fileInfoB : FileInfo := ⟨"b", 0, 0, 0⟩

def fileInfoG : FileInfo := ⟨"g", 0, 0, 0⟩

/-- A filesystem with root directory `/r` containing subdirectory `d`,
which contains file `g`. -/
def fsNested : FileSystem := ⟨"", [("/r", dirInfo), ("/r/d", subdirInfo), ("/r/d/g", fileInfoG)]⟩

/-- A filesystem with root directory `/r` containing only file `b`. -/
def fsWithB : FileSystem := ⟨"", [("/r", dirInfo), ("/r/b", fileInfoB)]⟩

/-- A filesystem with directory `/d` containing files `a` and `b`. -/
def fsD : FileSystem := ⟨"", [("/d", ⟨"d", 0, 2 ^ 31, 0⟩), ("/d/a", fileInfoA), ("/d/b", fileInfoB)]⟩

/-- A snapshot node for `/r` with no recorded children. -/
def rootEmpty : FileNode := .mk "/r" dirInfo false true []

/-- Old and new metadata for a file whose modification time changed. -/
def fOld : FileInfo := ⟨"f", 0, 0, 0⟩

def fNew : FileInfo := ⟨"f", 0, 0, 5⟩

def fsChanged : FileSystem := ⟨"", [("/r", dirInfo), ("/r/f", fNew)]⟩

/-- A snapshot of `/r` recording file `f` with the old metadata. -/
def rootWithF : FileNode := .mk "/r" dirInfo false true [("f", .mk "/r/f" fOld false false [])]

/-- A filesystem carrying a symbolic link at `/link` (mode bit 27). -/
def linkInfo : FileInfo := ⟨"link", 0, 2 ^ 27, 0⟩

def fsLink : FileSystem := ⟨"", [("/link", linkInfo), ("/r", dirInfo), ("/r/link", linkInfo)]⟩

/-- The tree after one diff pass of `rootEmpty` against `fsNested`. -/
def diffedRoot : FileNode := (pollNodeEvent sampleW fsNested false 5 rootEmpty).1.getD rootEmpty

/-- The child node for `d` discovered by that pass. -/
def dChild : FileNode := (alookup diffedRoot.children "d").getD rootEmpty

/-- The watcher after adding `/r` non-recursively over `fsNested`. -/
def addedW : GoWatcher :=
  match AddPath sampleW fsNested 3 "/r" false with
  | .ok w => w
  | .err _ => sampleW

/-- The stored root node for `/r` in `addedW`. -/
def addedRoot : FileNode := (alookup addedW.fileTrees "/r").getD rootEmpty

/-! ## Association list lemmas -/

@[simp] theorem alookup_nil {α : Type} (k : String) : alookup ([] : List (String × α)) k = none :=
  rfl

@[simp] theorem alookup_cons {α : Type} (k' : String) (v : α) (l : List (String × α)) (k : String) :
    alookup ((k', v) :: l) k = if k = k' then some v else alookup l k := rfl

theorem alookup_ainsert {α : Type} (l : List (String × α)) (key : String) (v : α) (k : String) :
    alookup (ainsert l key v) k = if k = key then some v else alookup l k := by
  induction l with
  | nil => by_cases h : k = key <;> simp [ainsert, h]
  | cons hd tl ih =>
    obtain ⟨k', v'⟩ := hd
    by_cases h1 : k' = key
    · subst h1
      by_cases h2 : k = k' <;> simp [ainsert, h2]
    · by_cases h2 : k = k'
      · subst h2
        simp [ainsert, h1, Ne.symm h1]
      · simp [ainsert, h1, h2, ih]

theorem alookup_aerase {α : Type} (l : List (String × α)) (key : String) (k : String) :
    alookup (aerase l key) k = if k = key then none else alookup l k := by
  induction l with
  | nil => simp [aerase]
  | cons hd tl ih =>
    obtain ⟨k', v'⟩ := hd
    by_cases h1 : k' = key
    · subst h1
      by_cases h2 : k = k'
      · subst h2; simp [aerase, ih]
      · simp [aerase, ih, h2]
    · by_cases h2 : k = k'
      · subst h2
        simp [aerase, h1, ih, Ne.symm h1]
      · simp [aerase, h1, ih, h2]

theorem mem_ainsert {α : Type} (x : String × α) (l : List (String × α)) (key : String) (v : α) :
    x ∈ ainsert l key v → x = (key, v) ∨ x ∈ l := by
  induction l with
  | nil => simp [ainsert]
  | cons hd tl ih =>
    obtain ⟨k', v'⟩ := hd
    by_cases h1 : k' = key <;> simp only [ainsert, h1, if_true, if_false] <;> intro hx
    · rcases List.mem_cons.mp hx with h | h
      · exact Or.inl h
      · exact Or.inr (List.mem_cons_of_mem _ h)
    · rcases List.mem_cons.mp hx with h | h
      · exact Or.inr (h ▸ List.mem_cons_self _ _)
      · rcases ih h with h' | h'
        · exact Or.inl h'
        · exact Or.inr (List.mem_cons_of_mem _ h')

theorem mem_aerase {α : Type} (x : String × α) (l : List (String × α)) (key : String) :
    x ∈ aerase l key → x ∈ l := by
  induction l with
  | nil => simp [aerase]
  | cons hd tl ih =>
    obtain ⟨k', v'⟩ := hd
    by_cases h1 : k' = key <;> simp only [aerase, h1, if_true, if_false] <;> intro hx
    · exact List.mem_cons_of_mem _ (ih hx)
    · rcases List.mem_cons.mp hx with h | h
      · exact h ▸ List.mem_cons_self _ _
      · exact List.mem_cons_of_mem _ (ih h)

theorem alookup_mem {α : Type} {l : List (String × α)} {k : String} {v : α} :
    alookup l k = some v → (k, v) ∈ l := by
  induction l with
  | nil => simp
  | cons hd tl ih =>
    obtain ⟨k', v'⟩ := hd
    by_cases h : k = k'
    · subst h
      simp only [alookup_cons, if_true, Option.some.injEq]
      intro hv
      exact hv ▸ List.mem_cons_self _ _
    · simp only [alookup_cons, h, if_false]
      intro hv
      exact List.mem_cons_of_mem _ (ih hv)

/-! ## Basic node lemmas -/

@[simp] theorem newNode_path (p : String) (i : FileInfo) (r ig : Bool) :
    (newNode p i r ig).path = p := rfl

@[simp] theorem newNode_info (p : String) (i : FileInfo) (r ig : Bool) :
    (newNode p i r ig).info = i := rfl

@[simp] theorem newNode_ignored (p : String) (i : FileInfo) (r ig : Bool) :
    (newNode p i r ig).ignored = (ig || i.symlinkBitSet) := rfl

@[simp] theorem newNode_recursive (p : String) (i : FileInfo) (r ig : Bool) :
    (newNode p i r ig).recursive = r := rfl

@[simp] theorem newNode_children (p : String) (i : FileInfo) (r ig : Bool) :
    (newNode p i r ig).children = [] := rfl

theorem pathJoin_length (p s : String) : (pathJoin p s).length = p.length + s.length + 1 := by
  have h : ("/" : String).length = 1 := rfl
  simp [pathJoin, String.length_append, h]
  omega

theorem str_ne_of_length_ne {a b : String} (h : a.length ≠ b.length) : a ≠ b :=
  fun he => h (he ▸ rfl)

/-- A path is never equal to one of its own join extensions. -/
theorem ne_pathJoin_self (p s : String) : p ≠ pathJoin p s :=
  str_ne_of_length_ne (by rw [pathJoin_length]; omega)

/-! ## Flag preservation by the diff engine -/

/-- The diff pass never changes a node's path, ignored flag or recursion
flag (it only replaces `Info` and rewrites `Children`). -/
theorem poll_flags (w : GoWatcher) (fs : FileSystem) (cancel : Bool) (fuel : Nat)
    (node n' : FileNode) (h : (pollNodeEvent w fs cancel fuel node).1 = some n') :
    n'.path = node.path ∧ n'.ignored = node.ignored ∧ n'.recursive = node.recursive := by
  cases fuel with
  | zero =>
    simp only [pollNodeEvent, Option.some.injEq] at h
    subst h; exact ⟨rfl, rfl, rfl⟩
  | succ fuel =>
    simp only [pollNodeEvent] at h
    repeat' split at h
    all_goals first
      | exact Option.noConfusion h
      | (injection h with h; subst h; simp)

/-! ## Cancellation behaviour of the diff engine -/

/-- Once `cancel` is signalled, the first loop emits only events coming out
of recursive diff calls (never a `Create`). -/
theorem pollLoop1_cancel_events (w : GoWatcher) (fs : FileSystem)
    (p : FileNode → Option FileNode × List Event) (np : String) (nr : Bool)
    (hp : ∀ (n : FileNode) (e : Event), e ∈ (p n).2 →
      e.op = Op.Remove ∧ lstat fs e.path = none) :
    ∀ (l : List FileInfo) (children : List (String × FileNode))
      (infoMap : List (String × FileInfo)) (e : Event),
      e ∈ (pollLoop1 w true p np nr l children infoMap).2.2.1 →
      e.op = Op.Remove ∧ lstat fs e.path = none := by
  intro l
  induction l with
  | nil => intro children infoMap e he; simp [pollLoop1] at he
  | cons info rest ih =>
    intro children infoMap e he
    simp only [pollLoop1] at he
    split at he
    · exact ih _ _ _ he
    · split at he
      · split at he
        · exact ih _ _ _ he
        · rcases List.mem_append.mp he with h | h
          · exact hp _ _ h
          · exact ih _ _ _ h
      · split at he
        · exact ih _ _ _ he
        · simp at he

/-- Once `cancel` is signalled, the examine loop emits only events coming
out of recursive diff calls (never a live-listing `Remove`). -/
theorem pollLoop2_cancel_events (fs : FileSystem)
    (p : FileNode → Option FileNode × List Event)
    (hp : ∀ (n : FileNode) (e : Event), e ∈ (p n).2 →
      e.op = Op.Remove ∧ lstat fs e.path = none) :
    ∀ (ks : List String) (children : List (String × FileNode))
      (infoMap : List (String × FileInfo)) (e : Event),
      e ∈ (pollLoop2 true p ks children infoMap).2.1 →
      e.op = Op.Remove ∧ lstat fs e.path = none := by
  intro ks
  induction ks with
  | nil => intro children infoMap e he; simp [pollLoop2] at he
  | cons k rest ih =>
    intro children infoMap e he
    simp only [pollLoop2] at he
    split at he
    · exact ih _ _ _ he
    · split at he
      · rcases List.mem_append.mp he with h | h
        · exact hp _ _ h
        · exact ih _ _ _ h
      · split at he
        · exact ih _ _ _ he
        · simp at he

/-- Once `cancel` is signalled, the only events a diff pass still emits are
`Remove` events for nodes whose own stat failed (the one unguarded send). -/
theorem poll_cancel_events (w : GoWatcher) (fs : FileSystem) :
    ∀ (fuel : Nat) (node : FileNode) (e : Event),
      e ∈ (pollNodeEvent w fs true fuel node).2 →
      e.op = Op.Remove ∧ lstat fs e.path = none := by
  intro fuel
  induction fuel with
  | zero => intro node e he; simp [pollNodeEvent] at he
  | succ fuel ih =>
    intro node e he
    simp only [pollNodeEvent] at he
    split at he
    · simp at he
    · split at he
      · rename_i hl
        simp only [List.mem_singleton] at he
        subst he
        exact ⟨rfl, hl⟩
      · rename_i newInfo hl
        split at he
        · simp at he
        · rename_i hT
          split at he
          · rename_i hM
            simp only [Bool.and_true, Bool.not_eq_true] at hT
            simp [hT] at he
          · rename_i hM
            simp only [Bool.and_true, Bool.not_eq_true] at hT hM
            simp only [hT, hM] at he
            split at he
            · simp at he
            · split at he
              · simp only [List.nil_append, List.append_nil] at he
                exact pollLoop1_cancel_events w fs _ _ _ ih _ _ _ _ (by simpa using he)
              · rcases List.mem_append.mp (by simpa using he) with h | h
                · exact pollLoop1_cancel_events w fs _ _ _ ih _ _ _ _ h
                · exact pollLoop2_cancel_events fs _ ih _ _ _ _ h

/-! ## Claim C2 -/

/-- Counterexample to C2 as stated: with `cancel` already signalled, diffing
a node whose path was removed still emits a `Remove` event (the send at the
stat-failure path is not guarded by `cancel`), and the node is dropped
(`nil` returned) rather than returned in its current state. -/
theorem cancel_unguarded_remove_cex :
    pollNodeEvent sampleW emptyFS true 1 goneNode =
      (none, [⟨Op.Remove, "/gone", goneInfo⟩]) := rfl

/-- C2 (amended): the `Write`, `Chmod`, `Create` and live-listing `Remove`
emission points all check `cancel` first — once `cancel` is signalled none
of them fires and the node is returned in its current state — but the
`Remove` emitted when the node's own stat fails is sent without checking
`cancel`; hence, under`cancel`, every event still emitted is a `Remove` for
a path whose stat failed.  The second conjunct shows the guarded behaviour
at the first emission point: a changed modification time under `cancel`
produces no event and returns the node unchanged. -/
theorem cancel_guards_all_but_stat_failure :
    (∀ (w : GoWatcher) (fs : FileSystem) (fuel : Nat) (node : FileNode) (e : Event),
      e ∈ (pollNodeEvent w fs true fuel node).2 →
      e.op = Op.Remove ∧ lstat fs e.path = none) ∧
    (∀ (w : GoWatcher) (fs : FileSystem) (fuel : Nat) (node : FileNode) (newInfo : FileInfo),
      node.ignored = false → lstat fs node.path = some newInfo →
      node.info.modTime ≠ newInfo.modTime →
      pollNodeEvent w fs true (fuel + 1) node = (some node, [])) := by
  constructor
  · exact fun w fs fuel node e he => poll_cancel_events w fs fuel node e he
  · intro w fs fuel node newInfo hig hl ht
    simp [pollNodeEvent, hig, hl, ht]

/-- Witness for C2's amended theorem at the concrete removed-path node and
at a concrete changed-file node. -/
theorem cancel_guards_witness :
    ((⟨Op.Remove, "/gone", goneInfo⟩ : Event).op = Op.Remove ∧
      lstat emptyFS "/gone" = none) ∧
    pollNodeEvent sampleW fsChanged true 1 (.mk "/r/f" fOld false false []) =
      (some (.mk "/r/f" fOld false false []), []) := by
  constructor
  · exact cancel_guards_all_but_stat_failure.1 sampleW emptyFS 1 goneNode _ (by decide)
  · exact cancel_guards_all_but_stat_failure.2 sampleW fsChanged 0 _ fNew rfl (by decide)
      (by decide)

/-! ## Claims C1, C8 support: the inner delivery loop -/

/-- Full characterisation of the inner loop for a positive cap: starting
from counter `k`, the delivered events are the first `maxEvents - k`
surviving events, and `cancel` is closed iff more survive than fit. -/
theorem startLoop_spec (w : GoWatcher) (hmax : 0 < w.maxEvents) :
    ∀ (raw : List Event) (k : Int), 0 ≤ k → k ≤ w.maxEvents →
      startLoop w raw k =
        ((surviving w raw).take (w.maxEvents - k).toNat,
          decide ((w.maxEvents - k).toNat < (surviving w raw).length)) := by
  intro raw
  induction raw with
  | nil =>
    intro k hk0 hkM
    simp [startLoop, surviving]
  | cons e rest ih =>
    intro k hk0 hkM
    by_cases hop : (!w.ops.isEmpty && !(w.ops.contains e.op)) = true
    · have hpred : survives w e = false := by
        unfold survives
        revert hop
        cases w.ops.isEmpty <;> cases w.ops.contains e.op <;> simp
      have hsurv : surviving w (e :: rest) = surviving w rest := by
        simp [surviving, List.filter_cons, hpred]
      simp only [startLoop]
      rw [if_pos hop, ih k hk0 hkM, hsurv]
    · have h1 : (w.ops.isEmpty || w.ops.contains e.op) = true := by
        revert hop
        cases w.ops.isEmpty <;> cases w.ops.contains e.op <;> simp
      by_cases hsn : shouldNotice w e.fileInfo.name e.path = true
      · have hpred : survives w e = true := by
          unfold survives
          rw [h1, hsn]; rfl
        have hsurv : surviving w (e :: rest) = e :: surviving w rest := by
          simp [surviving, List.filter_cons, hpred]
        by_cases hc : k + 1 > w.maxEvents
        · have hz : (w.maxEvents - k).toNat = 0 := by omega
          simp only [startLoop]
          rw [if_neg hop, if_neg (show ¬(!shouldNotice w e.fileInfo.name e.path) = true by
            rw [hsn]; simp)]
          rw [if_pos ⟨hmax, hc⟩, hsurv, hz]
          simp
        · have hsplit : (w.maxEvents - k).toNat = (w.maxEvents - (k + 1)).toNat + 1 := by
            omega
          simp only [startLoop]
          rw [if_neg hop, if_neg (show ¬(!shouldNotice w e.fileInfo.name e.path) = true by
            rw [hsn]; simp)]
          rw [if_neg (show ¬(w.maxEvents > 0 ∧ k + 1 > w.maxEvents) from fun hcon => hc hcon.2)]
          rw [ih (k + 1) (by omega) (by omega), hsurv, hsplit, List.take_succ_cons]
          refine congrArg (Prod.mk _) ?_
          rw [List.length_cons]
          exact decide_eq_decide.mpr (by omega)
      · have hsnf : shouldNotice w e.fileInfo.name e.path = false := by
          revert hsn
          cases shouldNotice w e.fileInfo.name e.path <;> simp
        have hpred : survives w e = false := by
          unfold survives
          rw [hsnf, Bool.and_false]
        have hsurv : surviving w (e :: rest) = surviving w rest := by
          simp [surviving, List.filter_cons, hpred]
        simp only [startLoop]
        rw [if_neg hop, if_pos (show (!shouldNotice w e.fileInfo.name e.path) = true by
          rw [hsnf]; rfl)]
        rw [ih k hk0 hkM, hsurv]

/-! ## Claim C1 -/

/-- C1: with a positive cap `N = maxEvents`, at most `N` events are
delivered per cycle; the delivered events are exactly the first `N`
surviving events of the cycle, and the cancellation signal is raised iff an
`(N+1)`-th surviving event was counted — that event and all later ones are
withheld. -/
theorem max_events_cap (w : GoWatcher) (raw : List Event) (h : 0 < w.maxEvents) :
    (runCycle w raw).1.length ≤ w.maxEvents.toNat ∧
    (runCycle w raw).1 = (surviving w raw).take w.maxEvents.toNat ∧
    ((runCycle w raw).2 = true ↔ w.maxEvents.toNat < (surviving w raw).length) := by
  have hs := startLoop_spec w h raw 0 le_rfl h.le
  unfold runCycle
  rw [hs]
  have h0 : w.maxEvents - 0 = w.maxEvents := by omega
  rw [h0]
  refine ⟨?_, rfl, ?_⟩
  · simp [List.length_take]
  · simp

/-- Witness for C1: cap of 1, two surviving raw events — the first is
delivered, the second is withheld and `cancel` is closed. -/
theorem max_events_cap_witness :
    (runCycle wCap [evA, evB]).1 = [evA] ∧ (runCycle wCap [evA, evB]).2 = true := by
  have h := max_events_cap wCap [evA, evB] (by decide)
  exact ⟨h.2.1.trans (by decide), h.2.2.mpr (by decide)⟩

/-! ## The ignored-subtree invariant -/

theorem ignoredInv_newNode (p : String) (i : FileInfo) (r ig : Bool) :
    IgnoredInv (newNode p i r ig) :=
  .mk _ _ _ _ _ (fun _ => rfl) (by simp)

theorem ignoredInv_children {n : FileNode} (h : IgnoredInv n) :
    ∀ c ∈ n.children, IgnoredInv c.2 := by
  cases h with
  | mk p i ig r cs h1 h2 => exact h2

theorem ignoredInv_setInfo {n : FileNode} (h : IgnoredInv n) (i : FileInfo) :
    IgnoredInv (n.setInfo i) := by
  cases h with
  | mk p i0 ig r cs h1 h2 => exact .mk _ _ _ _ _ h1 h2

/-- The tree-builder entry loop only inserts nodes satisfying the
invariant. -/
theorem ttLoop_inv (w : GoWatcher) (t : String → Option FileNode) (path : String) (r : Bool)
    (ht : ∀ (p : String) (n : FileNode), t p = some n → IgnoredInv n) :
    ∀ (l : List FileInfo) (childMap : List (String × FileNode)),
      (∀ c ∈ childMap, IgnoredInv c.2) →
      ∀ c ∈ ttLoop w t path r l childMap, IgnoredInv c.2 := by
  intro l
  induction l with
  | nil => intro childMap hm c hc; exact hm c hc
  | cons info rest ih =>
    intro childMap hm c hc
    simp only [ttLoop] at hc
    split at hc
    · exact ih _ hm c hc
    · split at hc
      · refine ih _ ?_ c hc
        intro x hx
        rcases mem_ainsert x _ _ _ hx with hx1 | hx1
        · subst hx1; exact ignoredInv_newNode _ _ _ _
        · exact hm x hx1
      · split at hc
        · split at hc
          · rename_i c0 hc0
            refine ih _ ?_ c hc
            intro x hx
            rcases mem_ainsert x _ _ _ hx with hx1 | hx1
            · subst hx1; exact ht _ _ hc0
            · exact hm x hx1
          · exact ih _ hm c hc
        · exact ih _ hm c hc

/-- Every tree the builder returns satisfies the ignored-subtree
invariant. -/
theorem traverseTree_inv (w : GoWatcher) (fs : FileSystem) :
    ∀ (fuel : Nat) (path : String) (r : Bool) (n : FileNode),
      traverseTree w fs fuel path r = some n → IgnoredInv n := by
  intro fuel
  induction fuel with
  | zero => intro path r n h; simp [traverseTree] at h
  | succ fuel ih =>
    intro path r n h
    simp only [traverseTree] at h
    split at h
    · exact Option.noConfusion h
    · rename_i stat hl
      split at h
      · injection h with h
        subst h
        exact ignoredInv_newNode _ _ _ _
      · rename_i hcond
        injection h with h
        subst h
        have hig : (newNode path stat r (shouldIgnore w stat.name path)).ignored = false := by
          revert hcond
          cases hni : (newNode path stat r (shouldIgnore w stat.name path)).ignored <;>
            simp [hni]
        refine .mk _ _ _ _ _ ?_ ?_
        · intro hcontra
          simp only [newNode] at hig
          simp only [newNode] at hcontra
          rw [hcontra] at hig
          exact Bool.noConfusion hig
        · intro c hc
          exact ttLoop_inv w _ path r (fun p n hn => ih p true n hn) _ [] (by simp) c hc

/-- The first diff loop preserves the invariant on the children map. -/
theorem pollLoop1_inv (w : GoWatcher) (cancel : Bool)
    (p : FileNode → Option FileNode × List Event) (np : String) (nr : Bool)
    (hp : ∀ (n : FileNode), IgnoredInv n → ∀ (n' : FileNode), (p n).1 = some n' → IgnoredInv n') :
    ∀ (l : List FileInfo) (children : List (String × FileNode))
      (infoMap : List (String × FileInfo)),
      (∀ c ∈ children, IgnoredInv c.2) →
      ∀ c ∈ (pollLoop1 w cancel p np nr l children infoMap).1, IgnoredInv c.2 := by
  intro l
  induction l with
  | nil => intro children infoMap hm c hc; exact hm c hc
  | cons info rest ih =>
    intro children infoMap hm c hc
    simp only [pollLoop1] at hc
    split at hc
    · exact ih _ _ hm c hc
    · split at hc
      · rename_i child hchild
        split at hc
        · exact ih _ _ hm c hc
        · have hcinv : IgnoredInv child := hm _ (alookup_mem hchild)
          refine ih _ _ ?_ c hc
          intro x hx
          split at hx
          · rename_i c' hc'
            rcases mem_ainsert x _ _ _ hx with hx1 | hx1
            · subst hx1; exact hp child hcinv c' hc'
            · exact hm x hx1
          · exact hm x (mem_aerase x _ _ hx)
      · have hnewinv : ∀ x ∈ ainsert children info.name
            (newNode (pathJoin np info.name) info nr (shouldIgnore w info.name (pathJoin np info.name))),
            IgnoredInv x.2 := by
          intro x hx
          rcases mem_ainsert x _ _ _ hx with hx1 | hx1
          · subst hx1; exact ignoredInv_newNode _ _ _ _
          · exact hm x hx1
        split at hc
        · exact ih _ _ hnewinv c hc
        · split at hc
          · exact hnewinv c hc
          · refine ih _ _ ?_ c hc
            intro x hx
            split at hx
            · rename_i c' hc'
              rcases mem_ainsert x _ _ _ hx with hx1 | hx1
              · subst hx1
                exact hp _ (ignoredInv_newNode _ _ _ _) c' hc'
              · exact hnewinv x hx1
            · exact hnewinv x hx

/-- The examine loop preserves the invariant on the children map. -/
theorem pollLoop2_inv (cancel : Bool)
    (p : FileNode → Option FileNode × List Event)
    (hp : ∀ (n : FileNode), IgnoredInv n → ∀ (n' : FileNode), (p n).1 = some n' → IgnoredInv n') :
    ∀ (ks : List String) (children : List (String × FileNode))
      (infoMap : List (String × FileInfo)),
      (∀ c ∈ children, IgnoredInv c.2) →
      ∀ c ∈ (pollLoop2 cancel p ks children infoMap).1, IgnoredInv c.2 := by
  intro ks
  induction ks with
  | nil => intro children infoMap hm c hc; exact hm c hc
  | cons k rest ih =>
    intro children infoMap hm c hc
    simp only [pollLoop2] at hc
    split at hc
    · exact ih _ _ hm c hc
    · rename_i childNode hchild
      have hcinv : IgnoredInv childNode := hm _ (alookup_mem hchild)
      split at hc
      · refine ih _ _ ?_ c hc
        intro x hx
        split at hx
        · rename_i c' hc'
          rcases mem_ainsert x _ _ _ hx with hx1 | hx1
          · subst hx1; exact hp childNode hcinv c' hc'
          · exact hm x hx1
        · exact hm x (mem_aerase x _ _ hx)
      · have herase : ∀ x ∈ aerase children k, IgnoredInv x.2 :=
          fun x hx => hm x (mem_aerase x _ _ hx)
        split at hc
        · exact ih _ _ herase c hc
        · split at hc
          · exact herase c hc
          · exact ih _ _ herase c hc

/-- A diff pass preserves the ignored-subtree invariant. -/
theorem poll_inv (w : GoWatcher) (fs : FileSystem) (cancel : Bool) :
    ∀ (fuel : Nat) (node n' : FileNode),
      IgnoredInv node → (pollNodeEvent w fs cancel fuel node).1 = some n' → IgnoredInv n' := by
  intro fuel
  induction fuel with
  | zero =>
    intro node n' hinv h
    simp only [pollNodeEvent, Option.some.injEq] at h
    subst h; exact hinv
  | succ fuel ih =>
    intro node n' hinv h
    simp only [pollNodeEvent] at h
    split at h
    · injection h with h; subst h; exact hinv
    · rename_i hig
      split at h
      · exact Option.noConfusion h
      · rename_i newInfo hl
        split at h
        · injection h with h; subst h; exact hinv
        · split at h
          · injection h with h; subst h; exact hinv
          · have hig' : node.ignored = false := by
              revert hig
              cases node.ignored <;> simp
            split at h
            · injection h with h; subst h; exact ignoredInv_setInfo hinv newInfo
            · have hchildren : ∀ c ∈ node.children, IgnoredInv c.2 :=
                ignoredInv_children hinv
              have hsetinv : ∀ (cs : List (String × FileNode)),
                  (∀ c ∈ cs, IgnoredInv c.2) →
                  IgnoredInv ((node.setInfo newInfo).setChildren cs) := by
                intro cs hcs
                cases node with
                | mk p i ig r cs0 =>
                  simp only [FileNode.ignored_mk] at hig'
                  subst hig'
                  exact .mk _ _ _ _ _ (fun hcontra => Bool.noConfusion hcontra) hcs
              split at h
              · injection h with h; subst h
                refine hsetinv _ ?_
                exact pollLoop1_inv w cancel _ _ _ (fun n hn n' hn' => ih n n' hn hn') _ _ _
                  (by simpa using hchildren)
              · injection h with h; subst h
                refine hsetinv _ ?_
                refine pollLoop2_inv cancel _ (fun n hn n' hn' => ih n n' hn hn') _ _ _ ?_
                exact pollLoop1_inv w cancel _ _ _ (fun n hn n' hn' => ih n n' hn hn') _ _ _
                  (by simpa using hchildren)

/-- Diffing an ignored node is a no-op: same node, no events, and the
filesystem is never consulted (the result is the same for every `fs`). -/
theorem poll_ignored_noop (w : GoWatcher) (fs : FileSystem) (cancel : Bool) (fuel : Nat)
    (node : FileNode) (h : node.ignored = true) :
    pollNodeEvent w fs cancel fuel node = (some node, []) := by
  cases fuel <;> simp [pollNodeEvent, h]

/-! ## Claim C10 -/

/-- C10: the ignored-subtree invariant — every reachable node with
`ignored = true` has empty children — holds for freshly constructed nodes,
for every tree the builder returns, and is preserved by every diff pass;
moreover the diff of an ignored node returns it unchanged with no events,
independently of the filesystem (`fs` is universally quantified on both
sides, so the filesystem is never inspected). -/
theorem ignored_subtree_invariant :
    (∀ (p : String) (i : FileInfo) (r ig : Bool), IgnoredInv (newNode p i r ig)) ∧
    (∀ (w : GoWatcher) (fs : FileSystem) (fuel : Nat) (path : String) (r : Bool) (n : FileNode),
      traverseTree w fs fuel path r = some n → IgnoredInv n) ∧
    (∀ (w : GoWatcher) (fs : FileSystem) (cancel : Bool) (fuel : Nat) (node n' : FileNode),
      IgnoredInv node → (pollNodeEvent w fs cancel fuel node).1 = some n' → IgnoredInv n') ∧
    (∀ (w : GoWatcher) (fs : FileSystem) (cancel : Bool) (fuel : Nat) (node : FileNode),
      node.ignored = true → pollNodeEvent w fs cancel fuel node = (some node, [])) :=
  ⟨ignoredInv_newNode,
   fun w fs fuel path r n h => traverseTree_inv w fs fuel path r n h,
   fun w fs cancel fuel node n' hinv h => poll_inv w fs cancel fuel node n' hinv h,
   fun w fs cancel fuel node h => poll_ignored_noop w fs cancel fuel node h⟩

/-- Witness for C10: a concrete ignored node is returned unchanged with no
events under two different filesystems, and a concrete built tree satisfies
the invariant. -/
theorem ignored_subtree_invariant_witness :
    pollNodeEvent sampleW fsNested true 3 (.mk "/r/d" subdirInfo true true []) =
      (some (.mk "/r/d" subdirInfo true true []), []) ∧
    pollNodeEvent sampleW emptyFS true 3 (.mk "/r/d" subdirInfo true true []) =
      (some (.mk "/r/d" subdirInfo true true []), []) ∧
    IgnoredInv (newNode "/r/d" subdirInfo true true) :=
  ⟨ignored_subtree_invariant.2.2.2 sampleW fsNested true 3 _ rfl,
   ignored_subtree_invariant.2.2.2 sampleW emptyFS true 3 _ rfl,
   ignored_subtree_invariant.1 "/r/d" subdirInfo true true⟩

/-! ## Recursion flags of newly discovered children -/

/-- Children bound to keys outside `orig` keep recursion flag `nr` through
the first diff loop (new children are built with the parent's flag, and
recursive diffs never change it). -/
theorem pollLoop1_new_recursive (w : GoWatcher) (cancel : Bool)
    (p : FileNode → Option FileNode × List Event) (np : String) (nr : Bool)
    (hp : ∀ (n n' : FileNode), (p n).1 = some n' → n'.recursive = n.recursive)
    (orig : List (String × FileNode)) :
    ∀ (l : List FileInfo) (children : List (String × FileNode))
      (infoMap : List (String × FileInfo)),
      (∀ (k : String) (c : FileNode), alookup children k = some c →
        alookup orig k = none → c.recursive = nr) →
      ∀ (k : String) (c : FileNode),
        alookup (pollLoop1 w cancel p np nr l children infoMap).1 k = some c →
        alookup orig k = none → c.recursive = nr := by
  intro l
  induction l with
  | nil => intro children infoMap hm k c hc ho; exact hm k c hc ho
  | cons info rest ih =>
    intro children infoMap hm k c hc ho
    simp only [pollLoop1] at hc
    split at hc
    · exact ih _ _ hm k c hc ho
    · split at hc
      · rename_i child hchild
        split at hc
        · exact ih _ _ hm k c hc ho
        · refine ih _ _ ?_ k c hc ho
          intro k2 c2 hk2 ho2
          split at hk2
          · rename_i c' hc'
            rw [alookup_ainsert] at hk2
            by_cases hkn : k2 = info.name
            · rw [if_pos hkn] at hk2
              injection hk2 with hk2
              subst hk2
              rw [hp child c' hc']
              exact hm info.name child hchild (hkn ▸ ho2)
            · rw [if_neg hkn] at hk2
              exact hm k2 c2 hk2 ho2
          · rw [alookup_aerase] at hk2
            by_cases hkn : k2 = info.name
            · rw [if_pos hkn] at hk2; exact Option.noConfusion hk2
            · rw [if_neg hkn] at hk2; exact hm k2 c2 hk2 ho2
      · have hm1 : ∀ (k2 : String) (c2 : FileNode),
            alookup (ainsert children info.name (newNode (pathJoin np info.name) info nr
              (shouldIgnore w info.name (pathJoin np info.name)))) k2 = some c2 →
            alookup orig k2 = none → c2.recursive = nr := by
          intro k2 c2 hk2 ho2
          rw [alookup_ainsert] at hk2
          by_cases hkn : k2 = info.name
          · rw [if_pos hkn] at hk2
            injection hk2 with hk2
            subst hk2
            rfl
          · rw [if_neg hkn] at hk2
            exact hm k2 c2 hk2 ho2
        split at hc
        · exact ih _ _ hm1 k c hc ho
        · split at hc
          · exact hm1 k c hc ho
          · refine ih _ _ ?_ k c hc ho
            intro k2 c2 hk2 ho2
            split at hk2
            · rename_i c' hc'
              rw [alookup_ainsert] at hk2
              by_cases hkn : k2 = info.name
              · rw [if_pos hkn] at hk2
                injection hk2 with hk2
                subst hk2
                rw [hp _ c' hc']
                rfl
              · rw [if_neg hkn] at hk2
                exact hm1 k2 c2 hk2 ho2
            · exact hm1 k2 c2 hk2 ho2

/-- The examine loop also keeps the flag of keys outside `orig`. -/
theorem pollLoop2_keeps_recursive (cancel : Bool)
    (p : FileNode → Option FileNode × List Event)
    (hp : ∀ (n n' : FileNode), (p n).1 = some n' → n'.recursive = n.recursive)
    (orig : List (String × FileNode)) (nr : Bool) :
    ∀ (ks : List String) (children : List (String × FileNode))
      (infoMap : List (String × FileInfo)),
      (∀ (k : String) (c : FileNode), alookup children k = some c →
        alookup orig k = none → c.recursive = nr) →
      ∀ (k : String) (c : FileNode),
        alookup (pollLoop2 cancel p ks children infoMap).1 k = some c →
        alookup orig k = none → c.recursive = nr := by
  intro ks
  induction ks with
  | nil => intro children infoMap hm k c hc ho; exact hm k c hc ho
  | cons k0 rest ih =>
    intro children infoMap hm k c hc ho
    simp only [pollLoop2] at hc
    split at hc
    · exact ih _ _ hm k c hc ho
    · rename_i childNode hchild
      split at hc
      · refine ih _ _ ?_ k c hc ho
        intro k2 c2 hk2 ho2
        split at hk2
        · rename_i c' hc'
          rw [alookup_ainsert] at hk2
          by_cases hkn : k2 = k0
          · rw [if_pos hkn] at hk2
            injection hk2 with hk2
            subst hk2
            rw [hp childNode c' hc']
            exact hm k0 childNode hchild (hkn ▸ ho2)
          · rw [if_neg hkn] at hk2
            exact hm k2 c2 hk2 ho2
        · rw [alookup_aerase] at hk2
          by_cases hkn : k2 = k0
          · rw [if_pos hkn] at hk2; exact Option.noConfusion hk2
          · rw [if_neg hkn] at hk2; exact hm k2 c2 hk2 ho2
      · have hm1 : ∀ (k2 : String) (c2 : FileNode),
            alookup (aerase children k0) k2 = some c2 →
            alookup orig k2 = none → c2.recursive = nr := by
          intro k2 c2 hk2 ho2
          rw [alookup_aerase] at hk2
          by_cases hkn : k2 = k0
          · rw [if_pos hkn] at hk2; exact Option.noConfusion hk2
          · rw [if_neg hkn] at hk2; exact hm k2 c2 hk2 ho2
        split at hc
        · exact ih _ _ hm1 k c hc ho
        · split at hc
          · exact hm1 k c hc ho
          · exact ih _ _ hm1 k c hc ho

/-- Any child the diff pass binds to a key that was absent from the node's
children gets the node's recursion flag. -/
theorem poll_new_child_recursive (w : GoWatcher) (fs : FileSystem) (cancel : Bool) :
    ∀ (fuel : Nat) (node n' : FileNode) (k : String) (c : FileNode),
      node.recursive = true →
      (pollNodeEvent w fs cancel fuel node).1 = some n' →
      alookup n'.children k = some c →
      alookup node.children k = none →
      c.recursive = true := by
  intro fuel node n' k c hrec h hk ho
  cases fuel with
  | zero =>
    simp only [pollNodeEvent] at h
    injection h with h
    subst h
    rw [ho] at hk
    exact Option.noConfusion hk
  | succ fuel =>
    simp only [pollNodeEvent] at h
    split at h
    · injection h with h; subst h; rw [ho] at hk; exact Option.noConfusion hk
    · split at h
      · exact Option.noConfusion h
      · rename_i newInfo hl
        split at h
        · injection h with h; subst h; rw [ho] at hk; exact Option.noConfusion hk
        · split at h
          · injection h with h; subst h; rw [ho] at hk; exact Option.noConfusion hk
          · split at h
            · injection h with h; subst h
              simp only [FileNode.setInfo_def, FileNode.children_mk] at hk
              rw [ho] at hk
              exact Option.noConfusion hk
            · have hp : ∀ (n n' : FileNode), (pollNodeEvent w fs cancel fuel n).1 = some n' →
                  n'.recursive = n.recursive :=
                fun n n' hn => (poll_flags w fs cancel fuel n n' hn).2.2
              have hrec1 : (node.setInfo newInfo).recursive = true := by simp [hrec]
              have hminit : ∀ (k2 : String) (c2 : FileNode),
                  alookup (node.setInfo newInfo).children k2 = some c2 →
                  alookup node.children k2 = none →
                  c2.recursive = (node.setInfo newInfo).recursive := by
                intro k2 c2 hk2 ho2
                simp only [FileNode.setInfo_def, FileNode.children_mk] at hk2
                rw [ho2] at hk2
                exact Option.noConfusion hk2
              split at h
              · injection h with h; subst h
                simp only [FileNode.setChildren_def, FileNode.children_mk] at hk
                have hres := pollLoop1_new_recursive w cancel _ _ _ hp node.children
                  _ _ _ hminit k c hk ho
                exact hres.trans hrec1
              · injection h with h; subst h
                simp only [FileNode.setChildren_def, FileNode.children_mk] at hk
                exact (pollLoop2_keeps_recursive cancel _ hp node.children _ _ _ _
                  (pollLoop1_new_recursive w cancel _ _ _ hp node.children _ _ _ hminit)
                  k c hk ho).trans hrec1

/-! ## Claim C6 -/

/-- C6: every root `AddPath` stores has `recursive = true` regardless of the
`recursive` argument (any root in the updated watch set is either an old
root or has the flag forced to true), and a diff pass on a node whose flag
is true creates every newly discovered child with `recursive = true` — so a
new subdirectory found directly under any root is created recursive and is
expanded in later cycles. -/
theorem roots_always_recursive :
    (∀ (w : GoWatcher) (fs : FileSystem) (fuel : Nat) (path : String) (r : Bool)
        (w' : GoWatcher),
      AddPath w fs fuel path r = .ok w' →
      ∀ (k : String) (c : FileNode), alookup w'.fileTrees k = some c →
        alookup w.fileTrees k = some c ∨ c.recursive = true) ∧
    (∀ (w : GoWatcher) (fs : FileSystem) (cancel : Bool) (fuel : Nat)
        (node n' : FileNode) (k : String) (c : FileNode),
      node.recursive = true →
      (pollNodeEvent w fs cancel fuel node).1 = some n' →
      alookup n'.children k = some c →
      alookup node.children k = none →
      c.recursive = true) := by
  constructor
  · intro w fs fuel path r w' h k c hk
    simp only [AddPath] at h
    split at h
    · exact AddPathResult.noConfusion h
    · rename_i stat hl
      split at h
      · exact AddPathResult.noConfusion h
      · split at h
        · injection h with h; subst h; exact Or.inl hk
        · split at h
          · injection h with h; subst h; exact Or.inl hk
          · split at h
            · exact AddPathResult.noConfusion h
            · rename_i fileNode hft
              injection h with h
              subst h
              simp only at hk
              rw [alookup_ainsert] at hk
              by_cases hkp : k = absPath fs path
              · rw [if_pos hkp] at hk
                injection hk with hk
                subst hk
                simp
              · rw [if_neg hkp] at hk
                exact Or.inl hk
  · intro w fs cancel fuel node n' k c hrec h hk ho
    exact poll_new_child_recursive w fs cancel fuel node n' k c hrec h hk ho

/-- Witness for C6: the root stored by a non-recursive `AddPath` over the
nested filesystem, and the child `d` discovered by a diff of the root both
have `recursive = true`. -/
theorem roots_always_recursive_witness :
    (alookup sampleW.fileTrees "/r" = some addedRoot ∨ addedRoot.recursive = true) ∧
    dChild.recursive = true := by
  constructor
  · exact roots_always_recursive.1 sampleW fsNested 3 "/r" false addedW (by rfl) "/r"
      addedRoot (by rfl)
  · exact roots_always_recursive.2 sampleW fsNested false 5 rootEmpty diffedRoot "d" dChild
      (by rfl) (by rfl) (by rfl) (by rfl)

/-! ## Claim C7 -/

/-- C7: `AddPath` normalizes its argument with `absPath` and then: rejects a
path that is itself a symbolic link with the symlink error; returns success
with the watcher unchanged when the normalized path is already a root, or
when it is excluded or hidden under the hidden-file policy (so adding an
already-present path leaves the watch set unchanged); otherwise builds the
subtree and stores it, with its recursion flag forced, as a new root. -/
theorem addPath_behavior (w : GoWatcher) (fs : FileSystem) (fuel : Nat) (path : String)
    (r : Bool) :
    (∀ stat : FileInfo, lstat fs (absPath fs path) = some stat → stat.symlinkBitSet = true →
      AddPath w fs fuel path r = .err .watchSymlink) ∧
    (∀ stat : FileInfo, lstat fs (absPath fs path) = some stat → stat.symlinkBitSet = false →
      (alookup w.fileTrees (absPath fs path)).isSome = true →
      AddPath w fs fuel path r = .ok w) ∧
    (∀ stat : FileInfo, lstat fs (absPath fs path) = some stat → stat.symlinkBitSet = false →
      alookup w.fileTrees (absPath fs path) = none →
      (shouldIgnore w stat.name (absPath fs path) ||
        (w.ignoreHidden && isHiddenFile (absPath fs path))) = true →
      AddPath w fs fuel path r = .ok w) ∧
    (∀ (stat : FileInfo) (n : FileNode), lstat fs (absPath fs path) = some stat →
      stat.symlinkBitSet = false →
      alookup w.fileTrees (absPath fs path) = none →
      (shouldIgnore w stat.name (absPath fs path) ||
        (w.ignoreHidden && isHiddenFile (absPath fs path))) = false →
      traverseTree w fs fuel (absPath fs path) r = some n →
      AddPath w fs fuel path r =
        .ok { w with fileTrees := ainsert w.fileTrees (absPath fs path) (n.setRecursive true) }) := by
  refine ⟨?_, ?_, ?_, ?_⟩
  · intro stat hl hsym
    simp only [AddPath]
    rw [hl]
    simp [hsym]
  · intro stat hl hsym hroot
    simp only [AddPath]
    rw [hl]
    simp [hsym, hroot]
  · intro stat hl hsym hroot hsup
    simp only [AddPath]
    rw [hl]
    simp [hsym, hroot, hsup]
  · intro stat n hl hsym hroot hsup htt
    simp only [AddPath]
    rw [hl]
    simp only [hsym, Bool.false_eq_true, if_false, hroot, Option.isSome_none, hsup]
    rw [htt]

/-- Witness for C7: a symlink root is rejected, and re-adding an existing
root is a no-op on a concrete watcher. -/
theorem addPath_behavior_witness :
    AddPath sampleW fsLink 3 "/link" true = .err .watchSymlink ∧
    AddPath addedW fsNested 3 "/r" true = .ok addedW := by
  constructor
  · exact (addPath_behavior sampleW fsLink 3 "/link" true).1 linkInfo (by rfl) (by decide)
  · exact (addPath_behavior addedW fsNested 3 "/r" true).2.1 dirInfo (by rfl) (by decide)
      (by rfl)

/-! ## Claim C4 -/

/-- Counterexample to C4 as stated: with entries named `b` excluded, the
tree builder walking `/d` (which contains live entries `a` and `b`) does not
record `b` in the children map at all — the excluded entry is skipped, not
stored as an `ignored = true` node. -/
theorem builder_records_excluded_cex :
    (readDir fsD "/d").map FileInfo.name = ["a", "b"] ∧
    (traverseTree wExcl fsD 2 "/d" true).isSome = true ∧
    (traverseTree wExcl fsD 2 "/d" true).bind (fun n => alookup n.children "b") = none := by
  refine ⟨rfl, rfl, rfl⟩

/-- The tree-builder entry loop never binds a name all of whose live entries
are suppressed by the exclude/hidden filters. -/
theorem ttLoop_skips_suppressed (w : GoWatcher) (t : String → Option FileNode)
    (path : String) (r : Bool) :
    ∀ (l : List FileInfo) (childMap : List (String × FileNode)) (name : String),
      (∀ info ∈ l, info.name = name →
        (shouldIgnore w name (pathJoin path name) ||
          (w.ignoreHidden && isHiddenFile (pathJoin path name))) = true) →
      alookup childMap name = none →
      alookup (ttLoop w t path r l childMap) name = none := by
  intro l
  induction l with
  | nil => intro childMap name hsup hnone; exact hnone
  | cons info rest ih =>
    intro childMap name hsup hnone
    have htail : ∀ info' ∈ rest, info'.name = name →
        (shouldIgnore w name (pathJoin path name) ||
          (w.ignoreHidden && isHiddenFile (pathJoin path name))) = true :=
      fun info' h hn => hsup info' (List.mem_cons_of_mem _ h) hn
    by_cases hn : info.name = name
    · have hthis := hsup info (List.mem_cons_self _ _) hn
      simp only [ttLoop]
      rw [if_pos (by rw [hn]; exact hthis)]
      exact ih _ _ htail hnone
    · simp only [ttLoop]
      split
      · exact ih _ _ htail hnone
      · split
        · refine ih _ _ htail ?_
          rw [alookup_ainsert, if_neg (fun h => hn (h.symm))]
          exact hnone
        · split
          · split
            · refine ih _ _ htail ?_
              rw [alookup_ainsert, if_neg (fun h => hn (h.symm))]
              exact hnone
            · exact ih _ _ htail hnone
          · exact ih _ _ htail hnone

/-- A live name whose entries are all suppressed is absent from the
children of any tree the builder returns. -/
theorem traverseTree_skips_suppressed (w : GoWatcher) (fs : FileSystem) (fuel : Nat)
    (path : String) (r : Bool) (n : FileNode) (name : String)
    (h : traverseTree w fs fuel path r = some n)
    (hsup : ∀ info ∈ readDir fs path, info.name = name →
      (shouldIgnore w name (pathJoin path name) ||
        (w.ignoreHidden && isHiddenFile (pathJoin path name))) = true) :
    alookup n.children name = none := by
  cases fuel with
  | zero => simp [traverseTree] at h
  | succ fuel =>
    simp only [traverseTree] at h
    split at h
    · exact Option.noConfusion h
    · rename_i stat hl
      split at h
      · injection h with h; subst h; rfl
      · injection h with h
        subst h
        simp only [FileNode.setChildren_def, FileNode.children_mk]
        exact ttLoop_skips_suppressed w _ path r _ [] name hsup rfl

theorem mem_retrieveAllNodes_self (n : FileNode) : (n.path, n) ∈ retrieveAllNodes n := by
  cases n with
  | mk p i ig r cs =>
    rw [retrieveAllNodes]
    exact List.mem_cons_self _ _

theorem mem_retrieveAllNodes_child {n : FileNode} {k : String} {c : FileNode}
    (h : (k, c) ∈ n.children) {x : String × FileNode} (hx : x ∈ retrieveAllNodes c) :
    x ∈ retrieveAllNodes n := by
  cases n with
  | mk p i ig r cs =>
    rw [retrieveAllNodes]
    refine List.mem_cons_of_mem _ ?_
    refine List.mem_flatten.mpr ⟨retrieveAllNodes c, ?_, hx⟩
    exact List.mem_map.mpr ⟨⟨(k, c), h⟩, List.mem_attach _ _, rfl⟩

/-- C4 (amended): entries matching an exclude (or hidden) filter are
*skipped entirely* by the tree builder — they are not recorded in the
children mapping (so the flattened listing does not contain them).  Only a
symbolic-link child is recorded as an `ignored = true` placeholder with
empty children: it is listed by the flattening but never expanded or
diffed. -/
theorem builder_excluded_semantics :
    (∀ (w : GoWatcher) (fs : FileSystem) (fuel : Nat) (path : String) (r : Bool)
        (n : FileNode) (name : String),
      traverseTree w fs fuel path r = some n →
      (∀ info ∈ readDir fs path, info.name = name →
        (shouldIgnore w name (pathJoin path name) ||
          (w.ignoreHidden && isHiddenFile (pathJoin path name))) = true) →
      alookup n.children name = none) ∧
    (∀ (w : GoWatcher) (cwd P s : String) (pInfo lInfo : FileInfo) (fuel : Nat),
      w.nameIgnores = [] → w.pathIgnores = [] → w.ignoreHidden = false →
      pInfo.IsDir = true → pInfo.symlinkBitSet = false →
      lInfo.name = s → lInfo.symlinkBitSet = true →
      ∃ n, traverseTree w ⟨cwd, [(P, pInfo), (pathJoin P s, lInfo)]⟩ (fuel + 2) P true =
          some n ∧
        alookup n.children s = some (.mk (pathJoin P s) lInfo true true []) ∧
        (pathJoin P s, (FileNode.mk (pathJoin P s) lInfo true true [])) ∈ retrieveAllNodes n ∧
        (∀ (w2 : GoWatcher) (fs2 : FileSystem) (cancel : Bool) (fuel2 : Nat),
          pollNodeEvent w2 fs2 cancel fuel2 (.mk (pathJoin P s) lInfo true true []) =
            (some (.mk (pathJoin P s) lInfo true true []), []))) := by
  constructor
  · intro w fs fuel path r n name h hsup
    exact traverseTree_skips_suppressed w fs fuel path r n name h hsup
  · intro w cwd P s pInfo lInfo fuel hni hpi hih hdir hpsym hlname hlsym
    have hshould : ∀ (a b : String), shouldIgnore w a b = false := by
      intro a b
      simp [shouldIgnore, hni, hpi]
    have hPne2 : P ≠ pathJoin P pInfo.name := ne_pathJoin_self P pInfo.name
    have hreadP : readDir ⟨cwd, [(P, pInfo), (pathJoin P s, lInfo)]⟩ P = [lInfo] := by
      simp [readDir, List.filter_cons, hPne2, hlname]
    have hlstatP : lstat ⟨cwd, [(P, pInfo), (pathJoin P s, lInfo)]⟩ P = some pInfo := by
      simp [lstat]
    have hlstatL : lstat ⟨cwd, [(P, pInfo), (pathJoin P s, lInfo)]⟩ (pathJoin P s) =
        some lInfo := by
      simp [lstat, Ne.symm (ne_pathJoin_self P s)]
    refine ⟨FileNode.mk P pInfo false true [(s, .mk (pathJoin P s) lInfo true true [])],
      ?_, ?_, ?_, ?_⟩
    · simp only [traverseTree, hlstatP, hreadP, ttLoop, hshould, hih, hlname, hlstatL,
        newNode, hdir, hpsym, hlsym, FileNode.setChildren_def, FileNode.ignored_mk,
        Bool.or_false, Bool.not_true, Bool.false_or, Bool.or_self, Bool.false_and,
        Bool.and_false, if_false, Bool.or_true, Bool.not_false, if_true, ainsert]
      simp
    · simp [alookup]
    · exact mem_retrieveAllNodes_child (List.mem_cons_self _ _)
        (mem_retrieveAllNodes_self (FileNode.mk (pathJoin P s) lInfo true true []))
    · intro w2 fs2 cancel fuel2
      exact poll_ignored_noop w2 fs2 cancel fuel2 _ rfl

/-- Witness for C4's amended theorem: the excluded name `b` is absent from
the children of the concrete built tree, and on a concrete
directory-plus-symlink filesystem the builder records the symlink as an
ignored placeholder that the flattening lists and the diff never touches. -/
theorem builder_excluded_semantics_witness :
    alookup ((traverseTree wExcl fsD 2 "/d" true).getD rootEmpty).children "b" = none ∧
    (∃ n, traverseTree sampleW ⟨"", [("/r", dirInfo), (pathJoin "/r" "link", linkInfo)]⟩
        (1 + 2) "/r" true = some n ∧
      alookup n.children "link" =
        some (.mk (pathJoin "/r" "link") linkInfo true true []) ∧
      (pathJoin "/r" "link", (FileNode.mk (pathJoin "/r" "link") linkInfo true true [])) ∈
        retrieveAllNodes n ∧
      (∀ (w2 : GoWatcher) (fs2 : FileSystem) (cancel : Bool) (fuel2 : Nat),
        pollNodeEvent w2 fs2 cancel fuel2 (.mk (pathJoin "/r" "link") linkInfo true true []) =
          (some (.mk (pathJoin "/r" "link") linkInfo true true []), []))) := by
  constructor
  · exact builder_excluded_semantics.1 wExcl fsD 2 "/d" true _ "b" (by rfl) (by decide)
  · exact builder_excluded_semantics.2 sampleW "" "/r" "link" dirInfo linkInfo 1
      rfl rfl rfl (by decide) (by decide) rfl (by decide)

/-! ## Claim C3 -/

/-- Counterexample to C3 as stated: the live entry `b` under `/r` matches an
exclude filter and is absent from the (empty) children of the watched root;
the claim demands that the diff insert an ignored child *and emit exactly
one `Create` event for it*, but the code emits no event at all — and the
examine loop even removes the inserted placeholder again before the pass
ends, leaving the children empty. -/
theorem discovery_excluded_no_create_cex :
    (readDir fsWithB "/r").map FileInfo.name = ["b"] ∧
    shouldIgnore wExcl "b" (pathJoin "/r" "b") = true ∧
    pollNodeEvent wExcl fsWithB false 3 rootEmpty =
      (some (.mk "/r" dirInfo false true []), []) :=
  ⟨rfl, rfl, rfl⟩

/-- C3 (amended): for a recursive directory node and a live entry absent
from its children (not hidden-suppressed): when the entry is *not*
excluded, the diff inserts a child node carrying the parent's recursion
flag, emits exactly one `Create` for it, and recursively diffs into it in
the same cycle (a new directory's own new content produces its `Create` in
the same pass); when the entry *is* excluded, no `Create` is emitted, the
child is not recursed into, and the placeholder inserted by the listing
loop is removed again by the examine loop before the pass ends, so the
node is returned with no new child and no event. -/
theorem discovery_create_semantics :
    (∀ (w : GoWatcher) (cwd P a b : String) (pInfo aInfo bInfo : FileInfo) (fuel : Nat),
      w.nameIgnores = [] → w.pathIgnores = [] → w.ignoreHidden = false →
      pInfo.IsDir = true →
      aInfo.name = a → aInfo.IsDir = true → aInfo.symlinkBitSet = false →
      bInfo.name = b → bInfo.IsDir = false → bInfo.symlinkBitSet = false →
      pollNodeEvent w
          ⟨cwd, [(P, pInfo), (pathJoin P a, aInfo), (pathJoin (pathJoin P a) b, bInfo)]⟩
          false (fuel + 3) (.mk P pInfo false true []) =
        (some (.mk P pInfo false true
            [(a, .mk (pathJoin P a) aInfo false true
              [(b, .mk (pathJoin (pathJoin P a) b) bInfo false true [])])]),
          [⟨Op.Create, pathJoin P a, aInfo⟩,
           ⟨Op.Create, pathJoin (pathJoin P a) b, bInfo⟩])) ∧
    (∀ (w : GoWatcher) (cwd P b : String) (pInfo bInfo : FileInfo) (fuel : Nat),
      w.ignoreHidden = false → pInfo.IsDir = true → bInfo.name = b →
      shouldIgnore w b (pathJoin P b) = true →
      pollNodeEvent w ⟨cwd, [(P, pInfo), (pathJoin P b, bInfo)]⟩ false (fuel + 2)
          (.mk P pInfo false true []) =
        (some (.mk P pInfo false true []), [])) := by
  constructor
  · intro w cwd P a b pInfo aInfo bInfo fuel hni hpi hih hpdir haname hadir hasym hbname
      hbfile hbsym
    have hshould : ∀ (x y : String), shouldIgnore w x y = false := by
      intro x y
      simp [shouldIgnore, hni, hpi]
    have hne1 : P ≠ pathJoin P pInfo.name := ne_pathJoin_self P pInfo.name
    have hne2 : pathJoin (pathJoin P a) b ≠ pathJoin P bInfo.name := by
      rw [hbname]
      refine str_ne_of_length_ne ?_
      simp only [pathJoin_length]
      omega
    have hne3 : P ≠ pathJoin (pathJoin P a) pInfo.name := by
      refine str_ne_of_length_ne ?_
      simp only [pathJoin_length]
      omega
    have hne4 : pathJoin P a ≠ pathJoin (pathJoin P a) aInfo.name :=
      ne_pathJoin_self _ _
    have hne5 : P ≠ pathJoin (pathJoin (pathJoin P a) b) pInfo.name := by
      refine str_ne_of_length_ne ?_
      simp only [pathJoin_length]
      omega
    have hne6 : pathJoin P a ≠ pathJoin (pathJoin (pathJoin P a) b) aInfo.name := by
      refine str_ne_of_length_ne ?_
      simp only [pathJoin_length]
      omega
    have hne7 : pathJoin (pathJoin P a) b ≠
        pathJoin (pathJoin (pathJoin P a) b) bInfo.name := ne_pathJoin_self _ _
    have hlstatP : lstat
        ⟨cwd, [(P, pInfo), (pathJoin P a, aInfo), (pathJoin (pathJoin P a) b, bInfo)]⟩ P =
        some pInfo := by
      simp [lstat]
    have hlstatA : lstat
        ⟨cwd, [(P, pInfo), (pathJoin P a, aInfo), (pathJoin (pathJoin P a) b, bInfo)]⟩
        (pathJoin P a) = some aInfo := by
      simp [lstat, Ne.symm (ne_pathJoin_self P a)]
    have hlstatB : lstat
        ⟨cwd, [(P, pInfo), (pathJoin P a, aInfo), (pathJoin (pathJoin P a) b, bInfo)]⟩
        (pathJoin (pathJoin P a) b) = some bInfo := by
      have g1 : pathJoin (pathJoin P a) b ≠ P := by
        refine str_ne_of_length_ne ?_
        simp only [pathJoin_length]
        omega
      have g2 : pathJoin (pathJoin P a) b ≠ pathJoin P a :=
        Ne.symm (ne_pathJoin_self _ _)
      simp [lstat, g1, g2]
    have hreadP : readDir
        ⟨cwd, [(P, pInfo), (pathJoin P a, aInfo), (pathJoin (pathJoin P a) b, bInfo)]⟩ P =
        [aInfo] := by
      simp [readDir, List.filter_cons, hne1, hne2, haname]
    have hreadA : readDir
        ⟨cwd, [(P, pInfo), (pathJoin P a, aInfo), (pathJoin (pathJoin P a) b, bInfo)]⟩
        (pathJoin P a) = [bInfo] := by
      simp [readDir, List.filter_cons, hne3, hne4, hbname]
    have hreadB : readDir
        ⟨cwd, [(P, pInfo), (pathJoin P a, aInfo), (pathJoin (pathJoin P a) b, bInfo)]⟩
        (pathJoin (pathJoin P a) b) = [] := by
      simp [readDir, List.filter_cons, hne5, hne6, hne7]
    simp only [pollNodeEvent, pollLoop1, pollLoop2, hlstatP, hlstatA, hlstatB, hreadP,
      hreadA, hreadB, hshould, hih, haname, hbname, hpdir, hadir, hbfile, hasym, hbsym,
      newNode, FileNode.setInfo_def, FileNode.setChildren_def, FileNode.ignored_mk,
      FileNode.info_mk, FileNode.path_mk, FileNode.recursive_mk, FileNode.children_mk,
      alookup, ainsert, aerase, bne_self_eq_false, Bool.false_and, Bool.and_false,
      Bool.not_true, Bool.not_false, Bool.or_false, Bool.false_or, Bool.or_true,
      Bool.true_or, Bool.and_true, Bool.true_and, if_true, if_false, List.map_cons,
      List.map_nil]
    simp
  · intro w cwd P b pInfo bInfo fuel hih hpdir hbname hexcl
    have hne1 : P ≠ pathJoin P pInfo.name := ne_pathJoin_self P pInfo.name
    have hlstatP : lstat ⟨cwd, [(P, pInfo), (pathJoin P b, bInfo)]⟩ P = some pInfo := by
      simp [lstat]
    have hreadP : readDir ⟨cwd, [(P, pInfo), (pathJoin P b, bInfo)]⟩ P = [bInfo] := by
      simp [readDir, List.filter_cons, hne1, hbname]
    simp only [pollNodeEvent, pollLoop1, pollLoop2, hlstatP, hreadP, hbname, hih, hpdir,
      hexcl, newNode, FileNode.setInfo_def, FileNode.setChildren_def, FileNode.ignored_mk,
      FileNode.info_mk, FileNode.path_mk, FileNode.recursive_mk, FileNode.children_mk,
      alookup, ainsert, aerase, bne_self_eq_false, Bool.false_and, Bool.and_false,
      Bool.not_true, Bool.not_false, Bool.or_false, Bool.false_or, Bool.or_true,
      Bool.true_or, Bool.and_true, Bool.true_and, if_true, if_false, List.map_cons,
      List.map_nil]
    simp

/-- Witness for C3's amended theorem on concrete data: `/r` discovering
subdirectory `d` containing file `g` (two `Create` events in one pass), and
`/r` over a filesystem whose only entry `b` is excluded (no event). -/
theorem discovery_create_semantics_witness :
    pollNodeEvent sampleW
        ⟨"", [("/r", dirInfo), (pathJoin "/r" "d", subdirInfo),
          (pathJoin (pathJoin "/r" "d") "g", fileInfoG)]⟩
        false 3 (.mk "/r" dirInfo false true []) =
      (some (.mk "/r" dirInfo false true
          [("d", .mk (pathJoin "/r" "d") subdirInfo false true
            [("g", .mk (pathJoin (pathJoin "/r" "d") "g") fileInfoG false true [])])]),
        [⟨Op.Create, pathJoin "/r" "d", subdirInfo⟩,
         ⟨Op.Create, pathJoin (pathJoin "/r" "d") "g", fileInfoG⟩]) ∧
    pollNodeEvent wExcl ⟨"", [("/r", dirInfo), (pathJoin "/r" "b", fileInfoB)]⟩ false 2
        (.mk "/r" dirInfo false true []) =
      (some (.mk "/r" dirInfo false true []), []) := by
  constructor
  · exact discovery_create_semantics.1 sampleW "" "/r" "d" "g" dirInfo subdirInfo fileInfoG 0
      rfl rfl rfl (by decide) rfl (by decide) (by decide) rfl (by decide) (by decide)
  · exact discovery_create_semantics.2 wExcl "" "/r" "b" dirInfo fileInfoB 0
      rfl (by decide) rfl (by decide)

/-! ## Claim C5 -/

/-- C5: a watched non-ignored file whose recorded modification time differs
from the live one (mode unchanged, parent unchanged, no cap/cancel) yields
exactly one `Write` event carrying the new metadata in the cycle: the
examine loop revisits the child after the listing loop already diffed it,
but no duplicate `Write` arises because the child's stored metadata was
replaced before the second visit. -/
theorem single_write_per_change (w : GoWatcher) (cwd P a : String)
    (pInfo cOld cNew : FileInfo) (fuel : Nat)
    (hih : w.ignoreHidden = false)
    (hname : cNew.name = a)
    (hpdir : pInfo.IsDir = true)
    (hcfile : cNew.IsDir = false)
    (ht : cOld.modTime ≠ cNew.modTime)
    (hm : cOld.mode = cNew.mode) :
    (pollNodeEvent w ⟨cwd, [(P, pInfo), (pathJoin P a, cNew)]⟩ false (fuel + 2)
      (.mk P pInfo false true [(a, .mk (pathJoin P a) cOld false false [])])).2 =
      [⟨Op.Write, pathJoin P a, cNew⟩] := by
  have hPne2 : P ≠ pathJoin P pInfo.name := ne_pathJoin_self P pInfo.name
  have hlstatP : lstat ⟨cwd, [(P, pInfo), (pathJoin P a, cNew)]⟩ P = some pInfo := by
    simp [lstat]
  have hlstatC : lstat ⟨cwd, [(P, pInfo), (pathJoin P a, cNew)]⟩ (pathJoin P a) =
      some cNew := by
    simp [lstat, Ne.symm (ne_pathJoin_self P a)]
  have hreadP : readDir ⟨cwd, [(P, pInfo), (pathJoin P a, cNew)]⟩ P = [cNew] := by
    simp [readDir, List.filter_cons, hPne2, hname]
  have hbneT : (cOld.modTime != cNew.modTime) = true := bne_iff_ne.mpr ht
  have hbneM : (cOld.mode != cNew.mode) = false := by simp [hm]
  simp only [pollNodeEvent, pollLoop1, pollLoop2, hlstatP, hlstatC, hreadP, hname, hih,
    hpdir, hcfile, hbneT, hbneM, FileNode.setInfo_def, FileNode.setChildren_def,
    FileNode.ignored_mk, FileNode.info_mk, FileNode.path_mk, FileNode.recursive_mk,
    FileNode.children_mk, alookup, ainsert, aerase, bne_self_eq_false,
    Bool.false_and, Bool.and_false, Bool.not_true, Bool.not_false, Bool.or_false,
    Bool.false_or, Bool.or_true, Bool.true_or, Bool.and_true, Bool.true_and, if_true,
    if_false, List.map_cons, List.map_nil]
  simp

/-- Witness for C5: the concrete changed file `/r/f` produces exactly one
`Write` event carrying the new metadata. -/
theorem single_write_per_change_witness :
    (pollNodeEvent sampleW ⟨"", [("/r", dirInfo), (pathJoin "/r" "f", fNew)]⟩ false 3
      (.mk "/r" dirInfo false true
        [("f", .mk (pathJoin "/r" "f") fOld false false [])])).2 =
      [⟨Op.Write, pathJoin "/r" "f", fNew⟩] :=
  single_write_per_change sampleW "" "/r" "f" dirInfo fOld fNew 1
    rfl rfl (by decide) (by decide) (by decide) rfl

/-! ## Claim C9: filter semantics -/

/-- C9: an entry is suppressed (at the exclusion call sites) iff it matches
at least one name-exclude or path-exclude pattern, or is hidden while the
hidden-file policy is enabled; and it is surfaced by `shouldNotice` iff both
include sets are empty or at least one name-include or path-include pattern
matches. -/
theorem filter_semantics (w : GoWatcher) (name path : String) :
    suppressed w name path = specSuppressed w name path ∧
    shouldNotice w name path = specSurfaced w name path := by
  constructor
  · unfold suppressed shouldIgnore specSuppressed
    cases hni : w.nameIgnores <;> cases hpi : w.pathIgnores <;>
      simp [List.any_cons, Bool.or_assoc]
  · unfold shouldNotice specSurfaced
    cases hnf : w.nameFilters <;> cases hpf : w.pathFilters <;>
      simp [List.any_cons, Bool.or_assoc]

/-! ## Claim C8: `Start` rejections -/

/-- C8: `startCheck` returns `DurationTooShort` exactly when the interval is
below 1 nanosecond; when the interval is valid and the watcher is already
running it returns `AlreadyRunning`; in both error cases the watcher state
is returned unchanged. -/
theorem start_rejections (w : GoWatcher) (d : Int) :
    ((startCheck w d).1 = some .durationTooShort ↔ d < 1) ∧
    (¬ d < 1 → w.running = true → startCheck w d = (some .watcherRunning, w)) ∧
    ((startCheck w d).1.isSome → (startCheck w d).2 = w) := by
  by_cases hd : d < 1 <;> cases hr : w.running <;> simp [startCheck, hd, hr]

/-- Witness for C8 at a concrete running watcher and a valid duration. -/
theorem start_rejections_witness :
    startCheck sampleRunningW 5 = (some .watcherRunning, sampleRunningW) :=
  (start_rejections sampleRunningW 5).2.1 (by decide) rfl

end GoWatcherSpec
